import Mathlib

/-!
Verification of the `extract-metadata` command-line tool (src/src/main.rs),
a utility that extracts stage size, frame count and frame rate from SWF
files and writes them as JSON, YAML or plain text.

The Rust sources are shallowly embedded: the record type `Metadata`, the
pure formatter `format_metadata`, the output-path derivation
(`Path::with_extension` with extension `swf.<format>`), the case-insensitive
`.swf` extension filter, the directory walker `process_directory`, the
writer `save_metadata` and the driver `main` are all translated into Lean
definitions.  The external SWF decoder (`swf::decompress_swf` /
`swf::parse_swf`) is an oracle `String → Option SwfInfo` (`none` models any
panic raised by the `unwrap` calls in `extract_metadata`); the filesystem is
a map `String → Option String` plus explicit success oracles for file
creation and writing.
-/

/-- The output record of src/src/main.rs (lines 26–32): `file_name`,
`stage_size : (u32, u32)`, `no_of_frames : u32`, `frame_rate : u32`.
The `u32` fields are embedded as `Nat`; `Metadata.valid` (below) records
the `u32` range bounds. -/
structure Metadata where
  file_name : String
  stage_size : Nat × Nat
  no_of_frames : Nat
  frame_rate : Nat
deriving DecidableEq, Repr

/-- The `u32` range invariants of the Rust record's numeric fields. -/
def Metadata.valid (m : Metadata) : Prop :=
  m.stage_size.1 < 2 ^ 32 ∧ m.stage_size.2 < 2 ^ 32 ∧
    m.no_of_frames < 2 ^ 32 ∧ m.frame_rate < 2 ^ 32

instance (m : Metadata) : Decidable m.valid := by
  unfold Metadata.valid; infer_instance

/-- Decimal digits of `n`, most significant first, computed with explicit
fuel so that the definition is structurally recursive (the model of Rust's
`Display for u32`, which prints plain decimal digits). -/
def toDecimalAux : Nat → Nat → List Char
  | 0, _ => []
  | fuel + 1, n =>
    if n < 10 then [Nat.digitChar n]
    else toDecimalAux fuel (n / 10) ++ [Nat.digitChar (n % 10)]

/-- Decimal rendering of a natural number, as Rust's `{}` formatting of an
unsigned integer produces it. -/
def toDecimal (n : Nat) : String :=
  ⟨toDecimalAux (n + 1) n⟩

/-- serde_json's escaping of a single character inside a JSON string:
`"` and `\` get a backslash escape, the named control characters get their
short escapes, the remaining control characters below 0x20 get `\u00XX`
with lowercase hex digits, and every other character is emitted raw. -/
def escapeJsonChar (c : Char) : List Char :=
  if c = '"' then ['\\', '"']
  else if c = '\\' then ['\\', '\\']
  else if c = '\x08' then ['\\', 'b']
  else if c = '\x09' then ['\\', 't']
  else if c = '\x0a' then ['\\', 'n']
  else if c = '\x0c' then ['\\', 'f']
  else if c = '\x0d' then ['\\', 'r']
  else if c.toNat < 32 then
    ['\\', 'u', '0', '0', Nat.digitChar (c.toNat / 16), Nat.digitChar (c.toNat % 16)]
  else [c]

/-- serde_json's escaping of a whole string body. -/
def escapeJsonList : List Char → List Char
  | [] => []
  | c :: cs => escapeJsonChar c ++ escapeJsonList cs

/-- String-level wrapper around `escapeJsonList`. -/
def escapeJson (s : String) : String :=
  ⟨escapeJsonList s.data⟩

/-- JSON values as serde_json produces them for this program's data:
strings, unsigned numbers, arrays, and objects with ordered fields. -/
inductive Json where
  | str (s : String)
  | num (n : Nat)
  | arr (xs : List Json)
  | obj (fields : List (String × Json))
deriving Repr

mutual

/-- Compact rendering of a JSON value, as `serde_json::to_string` emits it:
no whitespace, object fields in order. -/
def Json.render : Json → String
  | .str s => "\"" ++ escapeJson s ++ "\""
  | .num n => toDecimal n
  | .arr xs => "[" ++ Json.renderArr xs ++ "]"
  | .obj fs => "\x7b" ++ Json.renderObj fs ++ "\x7d"

/-- Comma-separated rendering of array elements. -/
def Json.renderArr : List Json → String
  | [] => ""
  | [x] => x.render
  | x :: y :: xs => x.render ++ "," ++ Json.renderArr (y :: xs)

/-- Comma-separated rendering of object fields (`"key":value`). -/
def Json.renderObj : List (String × Json) → String
  | [] => ""
  | [(k, v)] => "\"" ++ escapeJson k ++ "\":" ++ v.render
  | (k, v) :: f :: fs =>
    "\"" ++ escapeJson k ++ "\":" ++ v.render ++ "," ++ Json.renderObj (f :: fs)

end

/-- The JSON value `#[derive(serde::Serialize)]` produces for `Metadata`:
fields in declaration order (file_name, stage_size, no_of_frames,
frame_rate), with the tuple `stage_size` serialized as a two-element
array. -/
def Metadata.serialize (m : Metadata) : Json :=
  .obj [("file_name", .str m.file_name),
        ("stage_size", .arr [.num m.stage_size.1, .num m.stage_size.2]),
        ("no_of_frames", .num m.no_of_frames),
        ("frame_rate", .num m.frame_rate)]

/-- `serde_json::to_string` applied to a `Metadata` value (main.rs line 89). -/
def serde_json_to_string (m : Metadata) : String :=
  (Metadata.serialize m).render

/-- `serde_yaml::to_string` applied to a `Metadata` value (main.rs line 91):
block-style YAML, fields in declaration order, the tuple as a block
sequence, with a trailing newline.  (serde_yaml's scalar-quoting rules for
unusual strings are not modelled; no claim depends on the YAML output.) -/
def serde_yaml_to_string (m : Metadata) : String :=
  "file_name: " ++ m.file_name ++
    "\nstage_size:\n- " ++ toDecimal m.stage_size.1 ++
    "\n- " ++ toDecimal m.stage_size.2 ++
    "\nno_of_frames: " ++ toDecimal m.no_of_frames ++
    "\nframe_rate: " ++ toDecimal m.frame_rate ++ "\n"

/-- Split a file name at its last dot: `some (stem, ext)` when the name
contains a dot, with `ext` the part after the last dot; `none` otherwise. -/
def splitOnLastDot : List Char → Option (List Char × List Char)
  | [] => none
  | c :: cs =>
    match splitOnLastDot cs with
    | some (st, ex) => some (c :: st, ex)
    | none => if c = '.' then some ([], cs) else none

/-- Rust's `split_file_at_dot` on a file name: `".."` and names whose only
dot is a leading one (hidden files) have no extension; otherwise the stem
is the part before the last dot and the extension the part after it. -/
def rust_file_stem_ext (name : List Char) : List Char × Option (List Char) :=
  if name = ['.', '.'] then (name, none)
  else
    match splitOnLastDot name with
    | none => (name, none)
    | some ([], _) => (name, none)
    | some (st, ex) => (st, some ex)

/-- Split a path at its last `/`: `(directory prefix including the slash,
final component)`.  Models Rust path splitting for the normal-form paths
the CLI and `WalkDir` hand to this program. -/
def splitLastSlash : List Char → List Char × List Char
  | [] => ([], [])
  | c :: cs =>
    if cs.contains '/' then
      let df := splitLastSlash cs
      (c :: df.1, df.2)
    else if c = '/' then ([c], cs)
    else ([], c :: cs)

/-- Rust's `Path::with_extension`: replace the final component's extension
(as computed by `rust_file_stem_ext`) with `ext`.  Used with
`ext = "swf." ++ format` at main.rs lines 51 and 122. -/
def with_extension (path ext : String) : String :=
  let df := splitLastSlash path.data
  ⟨df.1 ++ (rust_file_stem_ext df.2).1 ++ ('.' :: ext.data)⟩

/-- Rust's `Path::extension` on a path string. -/
def rust_extension (path : String) : Option String :=
  ((rust_file_stem_ext (splitLastSlash path.data).2).2).map fun l => ⟨l⟩

/-- `format_metadata` (main.rs lines 87–98): dispatch on the format string;
`"json"` → serde_json, `"yaml"` → serde_yaml, anything else → the fixed
four-line text layout, where `{:?}` on the `(u32, u32)` tuple prints
`(w, h)`. -/
def format_metadata (metadata : Metadata) (format : String) : String :=
  if format = "json" then
    serde_json_to_string metadata
  else if format = "yaml" then
    serde_yaml_to_string metadata
  else
    "File: " ++ metadata.file_name ++
      "\nStage Size: (" ++ toDecimal metadata.stage_size.1 ++ ", " ++
      toDecimal metadata.stage_size.2 ++
      ")\nNumber of Frames: " ++ toDecimal metadata.no_of_frames ++
      "\nFrame Rate: " ++ toDecimal metadata.frame_rate

/-- The three header-derived quantities used to build a `Metadata` record
(main.rs lines 72–82).  The external `swf` crate's decompression and
parsing, together with the `f64`/`f32` numeric conversions of lines 76–81
(twips → truncated pixels, fixed-point 8.8 → truncated integer), sit behind
this oracle boundary: `none` models any panic raised by the `unwrap` calls
on `File::open`, `swf::decompress_swf` or `swf::parse_swf`. -/
structure SwfInfo where
  stage_size : Nat × Nat
  no_of_frames : Nat
  frame_rate : Nat
deriving DecidableEq, Repr

/-- `extract_metadata` (main.rs lines 65–85): run the decompress-and-parse
pipeline on a file and format the resulting record, with the record's
`file_name` set to the input path.  `none` models the function panicking
(every failure in the original is an `unwrap`).  The unconditional progress
line it prints to stdout carries no data and is not modelled. -/
def extract_metadata (parse_swf : String → Option SwfInfo)
    (file_name : String) (format : String) : Option String :=
  match parse_swf file_name with
  | none => none
  | some info =>
    some (format_metadata
      { file_name := file_name, stage_size := info.stage_size,
        no_of_frames := info.no_of_frames, frame_rate := info.frame_rate }
      format)

/-- Result of `save_metadata`: the filesystem after the call, the
verbose-gated info lines, and the error lines printed to stderr. -/
structure SaveResult where
  contents : String → Option String
  infos : List String
  errors : List String

/-- `save_metadata` (main.rs lines 139–155): `File::create` (truncating any
existing file) followed by `write_all`.  `create_ok`/`write_ok` are the
success oracles for the two fallible calls; failures are logged to stderr
and swallowed.  A failed `write_all` leaves the freshly truncated file;
its partial contents are approximated as empty (no claim depends on that
branch). -/
def save_metadata (contents : String → Option String) (create_ok write_ok : Bool)
    (output_path content : String) (verbose : Bool) : SaveResult :=
  if create_ok then
    if write_ok then
      { contents := fun p => if p = output_path then some content else contents p,
        infos := if verbose then ["Saved metadata to: " ++ output_path] else [],
        errors := [] }
    else
      { contents := fun p => if p = output_path then some "" else contents p,
        infos := [],
        errors := ["Error writing to " ++ output_path] }
  else
    { contents := contents, infos := [], errors := ["Error creating file " ++ output_path] }

/-- A directory entry as yielded by `WalkDir` (path plus whether it is a
regular file). -/
structure DirEntry where
  path : String
  is_file : Bool
deriving DecidableEq, Repr

/-- Model of Rust's `str::to_lowercase`: lowercase every character.
(`Char.toLower` lowercases ASCII; Unicode's multi-character special cases
do not affect comparison against `"swf"`, whose only preimages under
`to_lowercase` are its ASCII case variants.) -/
def to_lowercase (s : String) : String :=
  ⟨s.data.map Char.toLower⟩

/-- The selection test of main.rs lines 107–109: the entry is a regular
file and its extension, lowercased, equals `"swf"`. -/
def swf_match (e : DirEntry) : Bool :=
  e.is_file &&
    match rust_extension e.path with
    | some ext => to_lowercase ext == "swf"
    | none => false

/-- Accumulated state of the directory walk: the running `swf_count`, the
filesystem, the `(output path, content)` pairs handed to `save_metadata`,
the paths whose extraction failed, and the stderr lines (verbose-gated
info lines and unconditional error lines kept separate). -/
structure BatchAcc where
  swf_count : Nat
  contents : String → Option String
  saved : List (String × String)
  failed : List String
  infos : List String
  errors : List String

/-- The body of the `WalkDir` loop (main.rs lines 103–132) for one entry:
if the entry passes `swf_match`, bump `swf_count`, then run
`extract_metadata` under `catch_unwind`; on success derive the output path
with `with_extension` and call `save_metadata`, on failure log and
continue. -/
def process_one (parse_swf : String → Option SwfInfo) (create_ok write_ok : String → Bool)
    (format : String) (verbose : Bool) (acc : BatchAcc) (e : DirEntry) : BatchAcc :=
  if swf_match e then
    let acc1 : BatchAcc :=
      { acc with
        swf_count := acc.swf_count + 1,
        infos := acc.infos ++ (if verbose then ["Found SWF file: " ++ e.path] else []) }
    match extract_metadata parse_swf e.path format with
    | some output =>
      let out := with_extension e.path ("swf." ++ format)
      let r := save_metadata acc1.contents (create_ok out) (write_ok out) out output verbose
      { acc1 with
        contents := r.contents,
        saved := acc1.saved ++ [(out, output)],
        infos := acc1.infos ++ r.infos,
        errors := acc1.errors ++ r.errors }
    | none =>
      { acc1 with
        failed := acc1.failed ++ [e.path],
        errors := acc1.errors ++ ["Error: Failed to extract metadata from " ++ e.path] }
  else acc

/-- `process_directory` (main.rs lines 100–137): fold the loop body over
the `WalkDir` entries, then report the count when verbose. -/
def process_directory (parse_swf : String → Option SwfInfo) (create_ok write_ok : String → Bool)
    (entries : List DirEntry) (format : String) (verbose : Bool)
    (contents : String → Option String) : BatchAcc :=
  let r := entries.foldl (process_one parse_swf create_ok write_ok format verbose)
    { swf_count := 0, contents := contents, saved := [], failed := [],
      infos := [], errors := [] }
  { r with
    infos := r.infos ++
      (if verbose then ["Processed " ++ toDecimal r.swf_count ++ " SWF file(s)"] else []) }

/-- What `std::fs::metadata(&args.input)` reports about the input path. -/
inductive PathKind where
  | file
  | dir
  | other
  | missing
deriving DecidableEq, Repr

/-- The environment a run executes against: the input path's kind, the
`WalkDir` enumeration used in directory mode, the parse oracle, the
filesystem contents, and the success oracles for output creation and
writing. -/
structure Fsys where
  kind : String → PathKind
  entries : List DirEntry
  parse_swf : String → Option SwfInfo
  contents : String → Option String
  create_ok : String → Bool
  write_ok : String → Bool

/-- Observable outcome of a run of `main`: final filesystem, the
`(output path, content)` pairs handed to `save_metadata`, the extraction
failures, the stderr lines, whether the process panicked (abnormal
termination), and any explicit exit code. -/
structure RunResult where
  contents : String → Option String
  saved : List (String × String)
  failed : List String
  infos : List String
  errors : List String
  panicked : Bool
  exit_code : Option Nat

/-- `main` (main.rs lines 34–63): print the verbose banner, stat the input
(`.expect` panics when that fails), then dispatch: single-file pipeline,
directory walk, or the neither-file-nor-directory error with exit code 1. -/
def main_run (fs : Fsys) (input format : String) (verbose : Bool) : RunResult :=
  let d0 := if verbose then ["Input path: " ++ input, "Format: " ++ format] else []
  match fs.kind input with
  | .missing =>
    { contents := fs.contents, saved := [], failed := [], infos := d0,
      errors := [], panicked := true, exit_code := none }
  | .file =>
    let d1 := d0 ++ (if verbose then ["Processing single file..."] else [])
    match extract_metadata fs.parse_swf input format with
    | none =>
      { contents := fs.contents, saved := [], failed := [input], infos := d1,
        errors := [], panicked := true, exit_code := none }
    | some output =>
      let out := with_extension input ("swf." ++ format)
      let r := save_metadata fs.contents (fs.create_ok out) (fs.write_ok out) out output verbose
      { contents := r.contents, saved := [(out, output)], failed := [],
        infos := d1 ++ r.infos, errors := r.errors, panicked := false, exit_code := none }
  | .dir =>
    let d1 := d0 ++ (if verbose then ["Processing directory recursively..."] else [])
    let r := process_directory fs.parse_swf fs.create_ok fs.write_ok fs.entries format verbose fs.contents
    { contents := r.contents, saved := r.saved, failed := r.failed,
      infos := d1 ++ r.infos, errors := r.errors, panicked := false, exit_code := none }
  | .other =>
    { contents := fs.contents, saved := [], failed := [], infos := d0,
      errors := ["Error: Input path is neither a file nor a directory"],
      panicked := false, exit_code := some 1 }

/-- The JSON layout `format_metadata` produces for any record: fields in
declaration order, `stage_size` as a two-element array. -/
lemma format_metadata_json_eq (m : Metadata) :
    format_metadata m "json" =
      "\x7b\"file_name\":\"" ++ escapeJson m.file_name ++ "\",\"stage_size\":[" ++
        toDecimal m.stage_size.1 ++ "," ++ toDecimal m.stage_size.2 ++
        "],\"no_of_frames\":" ++ toDecimal m.no_of_frames ++
        ",\"frame_rate\":" ++ toDecimal m.frame_rate ++ "\x7d" := by
  apply String.ext
  simp [format_metadata, serde_json_to_string, Metadata.serialize, Json.render,
    Json.renderObj, Json.renderArr, escapeJson, escapeJsonList, escapeJsonChar,
    toDecimal]

/-- C1: for every `Metadata` record, the `"json"` selector produces a JSON
object whose fields appear in the order file_name, stage_size,
no_of_frames, frame_rate, with `stage_size` serialized as a two-element
array; in particular a record with file name ending `good.swf`, stage size
800×600, 100 frames and frame rate 30 yields exactly
`{"file_name":"/data/good.swf","stage_size":[800,600],"no_of_frames":100,"frame_rate":30}`. -/
theorem c1_json_field_order :
    (∀ m : Metadata, format_metadata m "json" =
      "\x7b\"file_name\":\"" ++ escapeJson m.file_name ++ "\",\"stage_size\":[" ++
        toDecimal m.stage_size.1 ++ "," ++ toDecimal m.stage_size.2 ++
        "],\"no_of_frames\":" ++ toDecimal m.no_of_frames ++
        ",\"frame_rate\":" ++ toDecimal m.frame_rate ++ "\x7d") ∧
    format_metadata ⟨"/data/good.swf", (800, 600), 100, 30⟩ "json" =
      "\x7b\"file_name\":\"/data/good.swf\",\"stage_size\":[800,600],\"no_of_frames\":100,\"frame_rate\":30\x7d" := by
  refine ⟨format_metadata_json_eq, ?_⟩
  rw [format_metadata_json_eq]
  decide

/-- C6: for every record and every selector other than `"json"` and
`"yaml"`, formatting returns the fixed four-line text layout (lines
beginning `File: `, `Stage Size: `, `Number of Frames: `, `Frame Rate: `,
with the stage size as a parenthesized pair) and never fails. -/
theorem c6_unknown_format_text_fallback (m : Metadata) (format : String)
    (h1 : format ≠ "json") (h2 : format ≠ "yaml") :
    format_metadata m format =
      "File: " ++ m.file_name ++ "\nStage Size: (" ++ toDecimal m.stage_size.1 ++
        ", " ++ toDecimal m.stage_size.2 ++ ")\nNumber of Frames: " ++
        toDecimal m.no_of_frames ++ "\nFrame Rate: " ++ toDecimal m.frame_rate := by
  simp [format_metadata, h1, h2]

/-- Witness for C6 at the selector `"xml"` and a concrete record. -/
theorem c6_unknown_format_text_fallback_witness :
    ("xml" : String) ≠ "json" ∧ ("xml" : String) ≠ "yaml" ∧
      format_metadata ⟨"test.swf", (800, 600), 100, 30⟩ "xml" =
        "File: test.swf\nStage Size: (800, 600)\nNumber of Frames: 100\nFrame Rate: 30" := by
  refine ⟨by decide, by decide, ?_⟩
  rw [c6_unknown_format_text_fallback _ _ (by decide) (by decide)]
  decide

/-- `splitLastSlash` is a decomposition: directory prefix and final
component concatenate back to the input. -/
lemma splitLastSlash_append (l : List Char) :
    (splitLastSlash l).1 ++ (splitLastSlash l).2 = l := by
  induction l with
  | nil => rfl
  | cons c cs ih =>
    simp only [splitLastSlash]
    cases h : cs.contains '/' with
    | true => simp [h, ih]
    | false =>
      by_cases hc : c = '/'
      · simp [h, hc]
      · simp [h, hc]

/-- `splitOnLastDot` is a decomposition: stem, dot and extension
concatenate back to the input. -/
lemma splitOnLastDot_eq (l st ex : List Char)
    (h : splitOnLastDot l = some (st, ex)) : l = st ++ '.' :: ex := by
  induction l generalizing st ex with
  | nil => simp [splitOnLastDot] at h
  | cons c cs ih =>
    simp only [splitOnLastDot] at h
    cases hs : splitOnLastDot cs with
    | some p =>
      rw [hs] at h
      obtain ⟨h1, h2⟩ := Prod.mk.injEq .. ▸ Option.some.injEq .. ▸ h
      subst h1; subst h2
      simpa using congrArg (c :: ·) (ih p.1 p.2 (by rw [hs]))
    | none =>
      rw [hs] at h
      by_cases hc : c = '.'
      · simp [hc] at h
        obtain ⟨h1, h2⟩ := h
        subst h1; subst h2; simp [hc]
      · simp [hc] at h

/-- When a file name has an extension, stem + dot + extension rebuild it. -/
lemma rust_file_stem_ext_snd_some (name l : List Char)
    (h : (rust_file_stem_ext name).2 = some l) :
    name = (rust_file_stem_ext name).1 ++ '.' :: l := by
  by_cases hdd : name = ['.', '.']
  · simp [rust_file_stem_ext, hdd] at h
  · cases hs : splitOnLastDot name with
    | none => simp [rust_file_stem_ext, hdd, hs] at h
    | some p =>
      obtain ⟨st, ex⟩ := p
      cases st with
      | nil => simp [rust_file_stem_ext, hdd, hs] at h
      | cons a as =>
        have hr : rust_file_stem_ext name = (a :: as, some ex) := by
          simp [rust_file_stem_ext, hdd, hs]
        rw [hr] at h ⊢
        simp only [Option.some.injEq] at h
        subst h
        exact splitOnLastDot_eq _ _ _ hs

/-- When a file name has no extension, the stem is the whole name. -/
lemma rust_file_stem_ext_snd_none (name : List Char)
    (h : (rust_file_stem_ext name).2 = none) :
    (rust_file_stem_ext name).1 = name := by
  by_cases hdd : name = ['.', '.']
  · simp [rust_file_stem_ext, hdd]
  · cases hs : splitOnLastDot name with
    | none => simp [rust_file_stem_ext, hdd, hs]
    | some p =>
      obtain ⟨st, ex⟩ := p
      cases st with
      | nil => simp [rust_file_stem_ext, hdd, hs]
      | cons a as => simp [rust_file_stem_ext, hdd, hs] at h

/-- C4: the output artifact path is the input path with its final
component's extension replaced by `swf.<format>`: when the file has an
extension `e`, the path splits as `stem ++ "." ++ e` and the output is
`stem ++ ".swf." ++ format`; when it has none, the output is the whole
path with `.swf.<format>` appended; concretely `movie.swf` + `json` ↦
`movie.swf.json`, `/a/b/c.swf` + `yaml` ↦ `/a/b/c.swf.yaml`, and
extensionless `README` + `json` ↦ `README.swf.json`. -/
theorem c4_output_path_rule :
    (∀ path fmt e : String, rust_extension path = some e →
      ∃ stem : List Char, path.data = stem ++ ('.' :: e.data) ∧
        (with_extension path ("swf." ++ fmt)).data =
          stem ++ ('.' :: (("swf." ++ fmt) : String).data)) ∧
    (∀ path fmt : String, rust_extension path = none →
      with_extension path ("swf." ++ fmt) = path ++ ".swf." ++ fmt) ∧
    with_extension "movie.swf" ("swf." ++ "json") = "movie.swf.json" ∧
    with_extension "/a/b/c.swf" ("swf." ++ "yaml") = "/a/b/c.swf.yaml" ∧
    with_extension "README" ("swf." ++ "json") = "README.swf.json" := by
  refine ⟨?_, ?_, by decide, by decide, by decide⟩
  · intro path fmt e h
    unfold rust_extension at h
    cases h2 : (rust_file_stem_ext (splitLastSlash path.data).2).2 with
    | none => simp [h2] at h
    | some l =>
      simp only [h2, Option.map_some'] at h
      refine ⟨(splitLastSlash path.data).1 ++
        (rust_file_stem_ext (splitLastSlash path.data).2).1, ?_, ?_⟩
      · have he : e.data = l := by
          injection h with h3
          rw [← h3]
        rw [he, List.append_assoc, ← rust_file_stem_ext_snd_some _ _ h2,
          splitLastSlash_append]
      · simp [with_extension, List.append_assoc]
  · intro path fmt h
    unfold rust_extension at h
    have h2 : (rust_file_stem_ext (splitLastSlash path.data).2).2 = none := by
      cases h2 : (rust_file_stem_ext (splitLastSlash path.data).2).2 with
      | none => rfl
      | some l => simp [h2] at h
    apply String.ext
    have h3 := splitLastSlash_append path.data
    simp only [with_extension, rust_file_stem_ext_snd_none _ h2, String.data_append,
      ← List.append_assoc, h3]
    simp

/-- Witness for C4: the extension-replacement conjunct at `movie.swf` with
format `json`, and the append conjunct at extensionless `README`. -/
theorem c4_output_path_rule_witness :
    rust_extension "movie.swf" = some "swf" ∧
    (∃ stem : List Char, ("movie.swf" : String).data = stem ++ ('.' :: ("swf" : String).data) ∧
      (with_extension "movie.swf" ("swf." ++ "json")).data =
        stem ++ ('.' :: (("swf." ++ "json") : String).data)) ∧
    rust_extension "README" = none ∧
    with_extension "README" ("swf." ++ "json") = "README" ++ ".swf." ++ "json" := by
  exact ⟨by decide, c4_output_path_rule.1 "movie.swf" "json" "swf" (by decide),
    by decide, c4_output_path_rule.2.1 "README" "json" (by decide)⟩

/-- C5: in directory mode a regular file is selected iff its extension
equals `swf` case-insensitively: `a.swf`, `a.SWF` and `a.SwF` are
selected, `a.swfx` is not. -/
theorem c5_case_insensitive_swf_filter :
    swf_match ⟨"a.swf", true⟩ = true ∧
    swf_match ⟨"a.SWF", true⟩ = true ∧
    swf_match ⟨"a.SwF", true⟩ = true ∧
    swf_match ⟨"a.swfx", true⟩ = false ∧
    (∀ e : DirEntry, swf_match e = true ↔
      e.is_file = true ∧
        ∃ ext, rust_extension e.path = some ext ∧ to_lowercase ext = "swf") := by
  refine ⟨by decide, by decide, by decide, by decide, ?_⟩
  intro e
  unfold swf_match
  cases hx : rust_extension e.path with
  | none => simp [hx]
  | some ext => simp [hx]

/-- One loop iteration bumps `swf_count` exactly when the entry passes the
`.swf` filter. -/
lemma process_one_swf_count (p : String → Option SwfInfo) (c w : String → Bool)
    (f : String) (v : Bool) (acc : BatchAcc) (e : DirEntry) :
    (process_one p c w f v acc e).swf_count =
      acc.swf_count + (if swf_match e then 1 else 0) := by
  by_cases hm : swf_match e
  · cases hx : extract_metadata p e.path f with
    | none => simp [process_one, hm, hx]
    | some o => simp [process_one, hm, hx]
  · simp [process_one, hm]

/-- One loop iteration appends to `saved` exactly the successful
extraction's output pair. -/
lemma process_one_saved (p : String → Option SwfInfo) (c w : String → Bool)
    (f : String) (v : Bool) (acc : BatchAcc) (e : DirEntry) :
    (process_one p c w f v acc e).saved =
      acc.saved ++
        (if swf_match e then
          ((extract_metadata p e.path f).map
            (fun o => (with_extension e.path ("swf." ++ f), o))).toList
        else []) := by
  by_cases hm : swf_match e
  · cases hx : extract_metadata p e.path f with
    | none => simp [process_one, hm, hx]
    | some o => simp [process_one, hm, hx]
  · simp [process_one, hm]

/-- One loop iteration appends to `failed` exactly the failing entry's
path. -/
lemma process_one_failed (p : String → Option SwfInfo) (c w : String → Bool)
    (f : String) (v : Bool) (acc : BatchAcc) (e : DirEntry) :
    (process_one p c w f v acc e).failed =
      acc.failed ++
        (if swf_match e then
          (if (extract_metadata p e.path f).isNone then [e.path] else [])
        else []) := by
  by_cases hm : swf_match e
  · cases hx : extract_metadata p e.path f with
    | none => simp [process_one, hm, hx]
    | some o => simp [process_one, hm, hx]
  · simp [process_one, hm]

/-- The stderr error lines one entry contributes: nothing when filtered
out, the save errors on success, the extraction-failure line on failure. -/
def entry_errors (p : String → Option SwfInfo) (c w : String → Bool)
    (f : String) (e : DirEntry) : List String :=
  if swf_match e then
    match extract_metadata p e.path f with
    | some o =>
      (save_metadata (fun _ => none) (c (with_extension e.path ("swf." ++ f)))
        (w (with_extension e.path ("swf." ++ f)))
        (with_extension e.path ("swf." ++ f)) o false).errors
    | none => ["Error: Failed to extract metadata from " ++ e.path]
  else []

/-- `save_metadata`'s error lines depend only on the oracles and the
output path. -/
lemma save_metadata_errors (contents contents' : String → Option String)
    (co wo : Bool) (out content content' : String) (v v' : Bool) :
    (save_metadata contents co wo out content v).errors =
      (save_metadata contents' co wo out content' v').errors := by
  cases co <;> cases wo <;> rfl

/-- One loop iteration appends exactly `entry_errors` to the error lines. -/
lemma process_one_errors (p : String → Option SwfInfo) (c w : String → Bool)
    (f : String) (v : Bool) (acc : BatchAcc) (e : DirEntry) :
    (process_one p c w f v acc e).errors =
      acc.errors ++ entry_errors p c w f e := by
  by_cases hm : swf_match e
  · cases hx : extract_metadata p e.path f with
    | none => simp [process_one, entry_errors, hm, hx]
    | some o =>
      simp only [process_one, entry_errors, hm, if_true, hx]
      simp only [List.append_cancel_left_eq]
      exact save_metadata_errors acc.contents (fun _ => none) _ _ _ o o v false
  · simp [process_one, entry_errors, hm]

/-- Folding the loop body counts exactly the entries passing the `.swf`
filter — regardless of whether their extraction succeeds. -/
lemma foldl_swf_count (p : String → Option SwfInfo) (c w : String → Bool)
    (f : String) (v : Bool) (entries : List DirEntry) : ∀ acc : BatchAcc,
    (entries.foldl (process_one p c w f v) acc).swf_count =
      acc.swf_count + (entries.filter swf_match).length := by
  induction entries with
  | nil => intro acc; simp
  | cons e es ih =>
    intro acc
    simp only [List.foldl_cons, ih, process_one_swf_count]
    by_cases hm : swf_match e
    · simp only [List.filter_cons_of_pos hm, List.length_cons, hm, if_true]
      omega
    · simp [hm, List.filter_cons_of_neg, hm]

/-- Folding the loop body saves exactly the successful extractions of the
filtered entries, in order. -/
lemma foldl_saved (p : String → Option SwfInfo) (c w : String → Bool)
    (f : String) (v : Bool) (entries : List DirEntry) : ∀ acc : BatchAcc,
    (entries.foldl (process_one p c w f v) acc).saved =
      acc.saved ++ (entries.filter swf_match).filterMap
        (fun e => (extract_metadata p e.path f).map
          (fun o => (with_extension e.path ("swf." ++ f), o))) := by
  induction entries with
  | nil => intro acc; simp
  | cons e es ih =>
    intro acc
    simp only [List.foldl_cons, ih, process_one_saved]
    by_cases hm : swf_match e
    · cases hx : extract_metadata p e.path f with
      | none => simp [hm, hx, List.filter_cons_of_pos, List.filterMap_cons]
      | some o => simp [hm, hx, List.filter_cons_of_pos, List.filterMap_cons]
    · simp [hm, List.filter_cons_of_neg]

/-- Folding the loop body records exactly the filtered entries whose
extraction fails, in order. -/
lemma foldl_failed (p : String → Option SwfInfo) (c w : String → Bool)
    (f : String) (v : Bool) (entries : List DirEntry) : ∀ acc : BatchAcc,
    (entries.foldl (process_one p c w f v) acc).failed =
      acc.failed ++ ((entries.filter swf_match).filter
        (fun e => (extract_metadata p e.path f).isNone)).map DirEntry.path := by
  induction entries with
  | nil => intro acc; simp
  | cons e es ih =>
    intro acc
    simp only [List.foldl_cons, ih, process_one_failed]
    by_cases hm : swf_match e
    · cases hx : extract_metadata p e.path f with
      | none => simp [hm, hx, List.filter_cons_of_pos, List.filter_cons]
      | some o => simp [hm, hx, List.filter_cons_of_pos, List.filter_cons]
    · simp [hm, List.filter_cons_of_neg]

/-- Folding the loop body logs exactly the per-entry error lines, in
order. -/
lemma foldl_errors (p : String → Option SwfInfo) (c w : String → Bool)
    (f : String) (v : Bool) (entries : List DirEntry) : ∀ acc : BatchAcc,
    (entries.foldl (process_one p c w f v) acc).errors =
      acc.errors ++ (entries.map (entry_errors p c w f)).flatten := by
  induction entries with
  | nil => intro acc; simp
  | cons e es ih =>
    intro acc
    simp only [List.foldl_cons, ih, process_one_errors]
    simp [List.append_assoc]

/-- The count `process_directory` reports equals the number of entries
passing the `.swf` filter, successful or not. -/
lemma process_directory_swf_count (p : String → Option SwfInfo) (c w : String → Bool)
    (entries : List DirEntry) (f : String) (v : Bool) (cont : String → Option String) :
    (process_directory p c w entries f v cont).swf_count =
      (entries.filter swf_match).length := by
  unfold process_directory
  simp [foldl_swf_count]

/-- The concrete two-file scenario of the spec: a directory holding a valid
`good.swf` (stage 800×600, 100 frames, 30 fps) and a corrupt `bad.swf`
whose extraction panics, processed with `--format json --verbose`. -/
def c2_run : BatchAcc :=
  process_directory
    (fun p => if p = "/d/good.swf" then some ⟨(800, 600), 100, 30⟩ else none)
    (fun _ => true) (fun _ => true)
    [⟨"/d/good.swf", true⟩, ⟨"/d/bad.swf", true⟩] "json" true (fun _ => none)

/-- C2 counterexample: in the good/bad two-file directory exactly one
output is written and the failure is recorded, but the reported count is
not 1 — `swf_count` is incremented before `catch_unwind`, so failures are
counted too. -/
theorem c2_counterexample_count_includes_failures :
    c2_run.saved.map Prod.fst = ["/d/good.swf.json"] ∧
    c2_run.failed = ["/d/bad.swf"] ∧
    c2_run.swf_count ≠ 1 := by
  decide

/-- C2 (amended): the count reported at the end of directory mode counts
every file matched by the `.swf` filter — attempted files, not only
successfully processed ones; in the good/bad scenario one output file is
produced, the failure is recorded, the batch continues, and the reported
count is 2. -/
theorem c2_count_counts_matched_files :
    (∀ (parse_swf : String → Option SwfInfo) (create_ok write_ok : String → Bool)
      (entries : List DirEntry) (format : String) (verbose : Bool)
      (contents : String → Option String),
      (process_directory parse_swf create_ok write_ok entries format verbose
        contents).swf_count = (entries.filter swf_match).length) ∧
    c2_run.swf_count = 2 ∧
    c2_run.saved.map Prod.fst = ["/d/good.swf.json"] ∧
    c2_run.failed = ["/d/bad.swf"] ∧
    c2_run.infos.getLast? = some "Processed 2 SWF file(s)" := by
  exact ⟨process_directory_swf_count, by decide, by decide, by decide, by decide⟩

/-- C3: directory mode isolates every per-file failure — the saved outputs
are exactly the successful extractions of the filtered entries, the
failures are exactly the filtered entries whose extraction (modelled
`none`, covering panics caught by `catch_unwind`) fails, and every failure
is logged; no failing entry disturbs the processing of any other entry. -/
theorem c3_per_file_failures_isolated :
    ∀ (parse_swf : String → Option SwfInfo) (create_ok write_ok : String → Bool)
      (entries : List DirEntry) (format : String) (verbose : Bool)
      (contents : String → Option String),
      (process_directory parse_swf create_ok write_ok entries format verbose
          contents).saved =
        (entries.filter swf_match).filterMap
          (fun e => (extract_metadata parse_swf e.path format).map
            (fun o => (with_extension e.path ("swf." ++ format), o))) ∧
      (process_directory parse_swf create_ok write_ok entries format verbose
          contents).failed =
        ((entries.filter swf_match).filter
          (fun e => (extract_metadata parse_swf e.path format).isNone)).map
            DirEntry.path ∧
      ∀ e ∈ entries, swf_match e = true →
        extract_metadata parse_swf e.path format = none →
        ("Error: Failed to extract metadata from " ++ e.path) ∈
          (process_directory parse_swf create_ok write_ok entries format verbose
            contents).errors := by
  intro p c w entries f v cont
  refine ⟨?_, ?_, ?_⟩
  · unfold process_directory
    simp [foldl_saved]
  · unfold process_directory
    simp [foldl_failed]
  · intro e he hm hx
    unfold process_directory
    simp only [foldl_errors, List.nil_append]
    refine List.mem_flatten.2 ⟨entry_errors p c w f e, List.mem_map_of_mem _ he, ?_⟩
    simp [entry_errors, hm, hx]

/-- The parse oracle of the C3 example scenario. -/
def c3_parse : String → Option SwfInfo :=
  fun p => if p = "/d/good.swf" then some ⟨(800, 600), 100, 30⟩ else none

/-- The C3 example scenario: good and corrupt file in one directory. -/
def c3_run : BatchAcc :=
  process_directory c3_parse (fun _ => true) (fun _ => true)
    [⟨"/d/good.swf", true⟩, ⟨"/d/bad.swf", true⟩] "json" false (fun _ => none)

/-- Witness for C3: in the example scenario `bad.swf` is matched, fails,
and its failure line is logged. -/
theorem c3_per_file_failures_isolated_witness :
    ((⟨"/d/bad.swf", true⟩ : DirEntry) ∈
      ([⟨"/d/good.swf", true⟩, ⟨"/d/bad.swf", true⟩] : List DirEntry)) ∧
    swf_match ⟨"/d/bad.swf", true⟩ = true ∧
    c3_parse "/d/bad.swf" = none ∧
    "Error: Failed to extract metadata from /d/bad.swf" ∈ c3_run.errors := by
  refine ⟨by decide, by decide, by decide, ?_⟩
  exact (c3_per_file_failures_isolated c3_parse (fun _ => true) (fun _ => true)
    [⟨"/d/good.swf", true⟩, ⟨"/d/bad.swf", true⟩] "json" false
    (fun _ => none)).2.2 ⟨"/d/bad.swf", true⟩ (by decide) (by decide) (by decide)

/-- `save_metadata` writes the same bytes whatever the verbose flag. -/
lemma save_metadata_contents_verbose (cont : String → Option String) (co wo : Bool)
    (out content : String) (v1 v2 : Bool) :
    (save_metadata cont co wo out content v1).contents =
      (save_metadata cont co wo out content v2).contents := by
  cases co <;> cases wo <;> rfl

/-- One loop iteration updates the filesystem the same way whatever the
verbose flag. -/
lemma process_one_contents_verbose (p : String → Option SwfInfo) (c w : String → Bool)
    (f : String) (v1 v2 : Bool) (acc1 acc2 : BatchAcc) (e : DirEntry)
    (hc : acc1.contents = acc2.contents) :
    (process_one p c w f v1 acc1 e).contents =
      (process_one p c w f v2 acc2 e).contents := by
  by_cases hm : swf_match e
  · cases hx : extract_metadata p e.path f with
    | none => simp [process_one, hm, hx, hc]
    | some o =>
      simp only [process_one, hm, if_true, hx]
      rw [hc]
      exact save_metadata_contents_verbose acc2.contents _ _ _ o v1 v2
  · simp [process_one, hm, hc]

/-- The directory fold updates the filesystem the same way whatever the
verbose flag. -/
lemma foldl_contents_verbose (p : String → Option SwfInfo) (c w : String → Bool)
    (f : String) (v1 v2 : Bool) (entries : List DirEntry) :
    ∀ acc1 acc2 : BatchAcc, acc1.contents = acc2.contents →
      (entries.foldl (process_one p c w f v1) acc1).contents =
        (entries.foldl (process_one p c w f v2) acc2).contents := by
  induction entries with
  | nil => intro acc1 acc2 hc; simpa using hc
  | cons e es ih =>
    intro acc1 acc2 hc
    exact ih _ _ (process_one_contents_verbose p c w f v1 v2 acc1 acc2 e hc)

/-- C8: runs differing only in the verbose flag hand `save_metadata` the
same `(path, content)` pairs and leave the filesystem in the same state —
the flag influences only diagnostic lines, never output file bytes. -/
theorem c8_verbose_does_not_affect_outputs :
    ∀ (fs : Fsys) (input format : String),
      (main_run fs input format true).saved = (main_run fs input format false).saved ∧
      (main_run fs input format true).contents =
        (main_run fs input format false).contents := by
  intro fs input format
  cases hk : fs.kind input with
  | missing => simp [main_run, hk]
  | file =>
    cases hx : extract_metadata fs.parse_swf input format with
    | none => simp [main_run, hk, hx]
    | some o =>
      simp only [main_run, hk, hx]
      exact ⟨trivial, save_metadata_contents_verbose fs.contents _ _ _ o true false⟩
  | dir =>
    simp only [main_run, hk]
    constructor
    · unfold process_directory
      simp [foldl_saved]
    · unfold process_directory
      exact foldl_contents_verbose fs.parse_swf fs.create_ok fs.write_ok format
        true false fs.entries _ _ rfl
  | other => simp [main_run, hk]

/-- C9: in single-file mode any pipeline failure (file open, decompress or
header parse — all `unwrap`ed) panics: the process terminates abnormally,
nothing is handed to `save_metadata`, and the filesystem is untouched. -/
theorem c9_single_file_failure_terminates_abnormally
    (fs : Fsys) (input format : String) (verbose : Bool)
    (h1 : fs.kind input = PathKind.file)
    (h2 : extract_metadata fs.parse_swf input format = none) :
    (main_run fs input format verbose).panicked = true ∧
    (main_run fs input format verbose).saved = [] ∧
    (main_run fs input format verbose).contents = fs.contents := by
  simp [main_run, h1, h2]

/-- The C9 example environment: the input stats as a regular file and its
parse panics. -/
def c9_fs : Fsys :=
  ⟨fun _ => PathKind.file, [], fun _ => none, fun _ => none,
    fun _ => true, fun _ => true⟩

/-- Witness for C9 at a concrete corrupt single file. -/
theorem c9_single_file_failure_terminates_abnormally_witness :
    c9_fs.kind "bad.swf" = PathKind.file ∧
    extract_metadata c9_fs.parse_swf "bad.swf" "json" = none ∧
    (main_run c9_fs "bad.swf" "json" false).panicked = true ∧
    (main_run c9_fs "bad.swf" "json" false).saved = [] := by
  refine ⟨rfl, rfl, ?_, ?_⟩
  · exact (c9_single_file_failure_terminates_abnormally c9_fs "bad.swf" "json" false
      rfl rfl).1
  · exact (c9_single_file_failure_terminates_abnormally c9_fs "bad.swf" "json" false
      rfl rfl).2.1

/-- C10: writing an output artifact over an existing destination silently
truncates and replaces its contents — no error is raised, the old contents
are gone, and no other path is affected. -/
theorem c10_save_overwrites_existing
    (contents : String → Option String) (out content old : String) (verbose : Bool)
    (_hexists : contents out = some old) :
    (save_metadata contents true true out content verbose).contents out = some content ∧
    (save_metadata contents true true out content verbose).errors = [] ∧
    ∀ q, q ≠ out →
      (save_metadata contents true true out content verbose).contents q = contents q := by
  refine ⟨?_, ?_, ?_⟩
  · simp [save_metadata]
  · simp [save_metadata]
  · intro q hq
    simp [save_metadata, hq]

/-- The C10 example: a destination that already holds other contents. -/
def c10_fs : String → Option String :=
  fun p => if p = "/d/movie.swf.json" then some "OLD" else none

/-- Witness for C10: overwriting an existing `movie.swf.json`. -/
theorem c10_save_overwrites_existing_witness :
    c10_fs "/d/movie.swf.json" = some "OLD" ∧
    (save_metadata c10_fs true true "/d/movie.swf.json" "NEW" false).contents
      "/d/movie.swf.json" = some "NEW" ∧
    (save_metadata c10_fs true true "/d/movie.swf.json" "NEW" false).errors = [] ∧
    (save_metadata c10_fs true true "/d/movie.swf.json" "NEW" false).contents
      "/d/other" = none := by
  have h := c10_save_overwrites_existing c10_fs "/d/movie.swf.json" "NEW" "OLD" false
    (by decide)
  refine ⟨by decide, h.1, h.2.1, ?_⟩
  rw [h.2.2 "/d/other" (by decide)]
  decide

/-- Value of a hexadecimal digit character, as a JSON parser reads the four
digits of a `\uXXXX` escape. -/
def hexVal (c : Char) : Option Nat :=
  if 48 ≤ c.toNat ∧ c.toNat ≤ 57 then some (c.toNat - 48)
  else if 97 ≤ c.toNat ∧ c.toNat ≤ 102 then some (c.toNat - 87)
  else if 65 ≤ c.toNat ∧ c.toNat ≤ 70 then some (c.toNat - 55)
  else none

/-- JSON string-body parsing (the model of serde_json's string reader,
specialized to a `&str` target): consume characters up to the closing
unescaped `"`, decoding the backslash escapes and `\u00XX` sequences and
rejecting raw control characters; return the decoded body and the rest of
the input. -/
def parseStringBody : List Char → Option (List Char × List Char)
  | [] => none
  | c :: rest =>
    if c = '"' then some ([], rest)
    else if c = '\\' then
      match rest with
      | [] => none
      | e :: rs =>
        if e = '"' then (parseStringBody rs).map fun p => ('"' :: p.1, p.2)
        else if e = '\\' then (parseStringBody rs).map fun p => ('\\' :: p.1, p.2)
        else if e = 'b' then (parseStringBody rs).map fun p => ('\x08' :: p.1, p.2)
        else if e = 'f' then (parseStringBody rs).map fun p => ('\x0c' :: p.1, p.2)
        else if e = 'n' then (parseStringBody rs).map fun p => ('\x0a' :: p.1, p.2)
        else if e = 'r' then (parseStringBody rs).map fun p => ('\x0d' :: p.1, p.2)
        else if e = 't' then (parseStringBody rs).map fun p => ('\x09' :: p.1, p.2)
        else if e = 'u' then
          match rs with
          | g1 :: g2 :: g3 :: g4 :: rs2 =>
            match hexVal g1, hexVal g2, hexVal g3, hexVal g4 with
            | some a, some b, some cc, some d =>
              let n := a * 4096 + b * 256 + cc * 16 + d
              if n.isValidChar then
                (parseStringBody rs2).map fun p => (Char.ofNat n :: p.1, p.2)
              else none
            | _, _, _, _ => none
          | _ => none
        else none
    else if c.toNat < 32 then none
    else (parseStringBody rest).map fun p => (c :: p.1, p.2)

/-- Take the maximal run of leading decimal digits. -/
def takeDigits : List Char → List Char × List Char
  | [] => ([], [])
  | c :: cs =>
    if c.isDigit then
      let p := takeDigits cs
      (c :: p.1, p.2)
    else ([], c :: cs)

/-- Numeric value of a list of decimal digit characters. -/
def digitsVal (l : List Char) : Nat :=
  l.foldl (fun a c => a * 10 + (c.toNat - 48)) 0

/-- Parse an unsigned 32-bit decimal integer (the model of serde_json's
`u32` deserialization on canonical output: a nonempty digit run whose
value fits in `u32`). -/
def parse_u32 (l : List Char) : Option (Nat × List Char) :=
  match takeDigits l with
  | ([], _) => none
  | (ds, rest) =>
    if digitsVal ds < 2 ^ 32 then some (digitsVal ds, rest) else none

/-- Consume an expected literal prefix. -/
def expect : List Char → List Char → Option (List Char)
  | [], l => some l
  | _ :: _, [] => none
  | c :: cs, d :: ds => if c = d then expect cs ds else none

/-- Whether a character list starts with a decimal digit. -/
def headIsDigit : List Char → Bool
  | [] => false
  | c :: _ => c.isDigit

/-- Model of `serde_json::from_str::<Metadata>` on the canonical output
this program emits: the object with the four fields in declaration order,
`stage_size` a two-element array, no interior whitespace.  (serde's parser
also accepts reordered fields and whitespace, which canonical output never
contains.) -/
def parse_metadata_json (s : String) : Option Metadata := do
  let l ← expect ("\x7b\"file_name\":\"".data) s.data
  let (name, l) ← parseStringBody l
  let l ← expect (",\"stage_size\":[".data) l
  let (w, l) ← parse_u32 l
  let l ← expect [','] l
  let (hgt, l) ← parse_u32 l
  let l ← expect ("],\"no_of_frames\":".data) l
  let (nf, l) ← parse_u32 l
  let l ← expect (",\"frame_rate\":".data) l
  let (fr, l) ← parse_u32 l
  let l ← expect ['\x7d'] l
  if l = [] then some ⟨⟨name⟩, (w, hgt), nf, fr⟩ else none

/-- `expect` consumes exactly the expected literal prefix. -/
lemma expect_append (lit rest : List Char) : expect lit (lit ++ rest) = some rest := by
  induction lit with
  | nil => rfl
  | cons c cs ih => simp [expect, ih]

/-- A decimal digit character's numeric value inverts `Nat.digitChar`. -/
lemma digitChar_val : ∀ d < 10, (Nat.digitChar d).toNat - 48 = d := by decide

/-- `Nat.digitChar` of a decimal digit is a digit character. -/
lemma digitChar_isDigit : ∀ d < 10, (Nat.digitChar d).isDigit = true := by decide

/-- `hexVal` inverts `Nat.digitChar` on hexadecimal digits. -/
lemma hexVal_digitChar : ∀ d < 16, hexVal (Nat.digitChar d) = some d := by decide

/-- `hexVal` of the character `0`. -/
lemma hexVal_zero : hexVal '0' = some 0 := rfl

/-- Every character `toDecimalAux` emits is a decimal digit. -/
lemma toDecimalAux_all_digits : ∀ fuel n c, c ∈ toDecimalAux fuel n → c.isDigit = true := by
  intro fuel
  induction fuel with
  | zero => intro n c hc; simp [toDecimalAux] at hc
  | succ f ih =>
    intro n c hc
    by_cases h10 : n < 10
    · simp [toDecimalAux, h10] at hc
      subst hc
      exact digitChar_isDigit n h10
    · simp only [toDecimalAux, if_neg h10, List.mem_append, List.mem_singleton] at hc
      rcases hc with hc | hc
      · exact ih _ _ hc
      · subst hc
        exact digitChar_isDigit _ (Nat.mod_lt _ (by norm_num))

/-- `toDecimalAux` with positive fuel never returns the empty list. -/
lemma toDecimalAux_ne_nil (fuel n : Nat) : toDecimalAux (fuel + 1) n ≠ [] := by
  simp only [toDecimalAux]
  split <;> simp

/-- Accumulator form of `digitsVal`. -/
lemma foldl_digitsVal_acc (l : List Char) :
    ∀ acc : Nat, l.foldl (fun a c => a * 10 + (c.toNat - 48)) acc =
      acc * 10 ^ l.length + digitsVal l := by
  induction l with
  | nil => intro acc; simp [digitsVal]
  | cons c cs ih =>
    intro acc
    simp only [List.foldl_cons, digitsVal, List.length_cons]
    rw [ih (acc * 10 + (c.toNat - 48)), ih (0 * 10 + (c.toNat - 48))]
    ring

/-- Appending one digit multiplies the value by ten and adds the digit. -/
lemma digitsVal_append_digit (l : List Char) (c : Char) :
    digitsVal (l ++ [c]) = digitsVal l * 10 + (c.toNat - 48) := by
  simp [digitsVal, List.foldl_append]

/-- `digitsVal` inverts `toDecimalAux` whenever the fuel suffices. -/
lemma digitsVal_toDecimalAux : ∀ fuel, ∀ n < 10 ^ fuel,
    digitsVal (toDecimalAux fuel n) = n := by
  intro fuel
  induction fuel with
  | zero =>
    intro n h
    have hn : n = 0 := by simpa using h
    subst hn
    simp [toDecimalAux, digitsVal]
  | succ f ih =>
    intro n h
    by_cases h10 : n < 10
    · simp only [toDecimalAux, if_pos h10, digitsVal, List.foldl_cons, List.foldl_nil]
      have := digitChar_val n h10
      omega
    · simp only [toDecimalAux, if_neg h10]
      rw [digitsVal_append_digit,
        ih (n / 10) (Nat.div_lt_of_lt_mul (by rw [pow_succ'] at h; exact h)),
        digitChar_val (n % 10) (Nat.mod_lt _ (by norm_num))]
      omega

/-- `takeDigits` splits a digit run from a non-digit-headed tail. -/
lemma takeDigits_append : ∀ ds rest : List Char, (∀ c ∈ ds, c.isDigit = true) →
    headIsDigit rest = false → takeDigits (ds ++ rest) = (ds, rest) := by
  intro ds
  induction ds with
  | nil =>
    intro rest _ hrest
    cases rest with
    | nil => rfl
    | cons c cs =>
      simp only [headIsDigit] at hrest
      simp [takeDigits, hrest]
  | cons c cs ih =>
    intro rest hds hrest
    simp [takeDigits, hds c (by simp), ih rest (fun x hx => hds x (by simp [hx])) hrest]

/-- Every natural is below `10 ^ (n + 1)`. -/
lemma lt_ten_pow_succ (n : Nat) : n < 10 ^ (n + 1) :=
  lt_of_lt_of_le (Nat.lt_pow_self (by norm_num) n)
    (Nat.pow_le_pow_right (by norm_num) (Nat.le_succ n))

/-- `parse_u32` inverts the decimal rendering of a `u32` value when the
following character is not a digit. -/
lemma parse_u32_toDecimal (n : Nat) (rest : List Char) (hn : n < 2 ^ 32)
    (hrest : headIsDigit rest = false) :
    parse_u32 (toDecimalAux (n + 1) n ++ rest) = some (n, rest) := by
  have hd : digitsVal (toDecimalAux (n + 1) n) = n :=
    digitsVal_toDecimalAux (n + 1) n (lt_ten_pow_succ n)
  have hdig := toDecimalAux_all_digits (n + 1) n
  have hne := toDecimalAux_ne_nil n n
  unfold parse_u32
  rw [takeDigits_append _ _ hdig hrest]
  cases heq : toDecimalAux (n + 1) n with
  | nil => exact absurd heq hne
  | cons a as =>
    have hd2 : digitsVal (a :: as) = n := heq ▸ hd
    simp [hd2, hn]
    omega

/-- The JSON string reader inverts serde_json's escaping: parsing the
escaped body followed by the closing quote returns the original string and
the remaining input. -/
lemma parseStringBody_escape (s rest : List Char) :
    parseStringBody (escapeJsonList s ++ '"' :: rest) = some (s, rest) := by
  induction s with
  | nil =>
    simp only [escapeJsonList, List.nil_append]
    unfold parseStringBody
    simp
  | cons c cs ih =>
    simp only [escapeJsonList, List.append_assoc]
    by_cases h1 : c = '"'
    · subst h1
      simp [escapeJsonChar]
      unfold parseStringBody
      simp [ih]
    · by_cases h2 : c = '\\'
      · subst h2
        simp [escapeJsonChar]
        unfold parseStringBody
        simp [ih]
      · by_cases h3 : c = '\x08'
        · subst h3
          simp [escapeJsonChar]
          unfold parseStringBody
          simp [ih]
        · by_cases h4 : c = '\x09'
          · subst h4
            simp [escapeJsonChar]
            unfold parseStringBody
            simp [ih]
          · by_cases h5 : c = '\x0a'
            · subst h5
              simp [escapeJsonChar]
              unfold parseStringBody
              simp [ih]
            · by_cases h6 : c = '\x0c'
              · subst h6
                simp [escapeJsonChar]
                unfold parseStringBody
                simp [ih]
              · by_cases h7 : c = '\x0d'
                · subst h7
                  simp [escapeJsonChar]
                  unfold parseStringBody
                  simp [ih]
                · by_cases h8 : c.toNat < 32
                  · have ht : c.toNat / 16 < 16 := by omega
                    have ht2 : c.toNat % 16 < 16 := Nat.mod_lt _ (by norm_num)
                    have hesc : escapeJsonChar c =
                        ['\\', 'u', '0', '0', Nat.digitChar (c.toNat / 16),
                          Nat.digitChar (c.toNat % 16)] := by
                      simp [escapeJsonChar, h1, h2, h3, h4, h5, h6, h7, h8]
                    have hdm : c.toNat / 16 * 16 + c.toNat % 16 = c.toNat := by omega
                    have hvc : Nat.isValidChar c.toNat := Or.inl (by omega)
                    rw [hesc]
                    simp only [List.cons_append, List.nil_append]
                    unfold parseStringBody
                    simp [hexVal_zero, hexVal_digitChar _ ht,
                      hexVal_digitChar _ ht2, hdm, hvc, ih]
                  · have hesc : escapeJsonChar c = [c] := by
                      simp [escapeJsonChar, h1, h2, h3, h4, h5, h6, h7, h8]
                    rw [hesc]
                    simp only [List.cons_append, List.nil_append]
                    unfold parseStringBody
                    simp [h1, h2, h8, ih]

/-- `String.mk` and `String.data` are inverse. -/
lemma data_mk (l : List Char) : (String.mk l).data = l := rfl

/-- A comma does not start a digit run. -/
lemma headIsDigit_comma (l : List Char) : headIsDigit (',' :: l) = false := rfl

/-- A closing bracket does not start a digit run. -/
lemma headIsDigit_rbracket (l : List Char) : headIsDigit (']' :: l) = false := rfl

/-- A closing brace does not start a digit run. -/
lemma headIsDigit_rbrace (l : List Char) : headIsDigit ('\x7d' :: l) = false := rfl

/-- C7: for every valid `Metadata` record, parsing the JSON produced by
`format_metadata m "json"` returns exactly `m`, field by field. -/
theorem c7_json_round_trip (m : Metadata) (hv : m.valid) :
    parse_metadata_json (format_metadata m "json") = some m := by
  obtain ⟨⟨nameL⟩, ⟨w, h⟩, nf, fr⟩ := m
  have hw : w < 2 ^ 32 := hv.1
  have hh : h < 2 ^ 32 := hv.2.1
  have hnf : nf < 2 ^ 32 := hv.2.2.1
  have hfr : fr < 2 ^ 32 := hv.2.2.2
  have e1 : ∀ X : List Char, parse_u32 (toDecimalAux (w + 1) w ++ ',' :: X) =
      some (w, ',' :: X) := fun X => parse_u32_toDecimal w (',' :: X) hw rfl
  have e2 : ∀ X : List Char, parse_u32 (toDecimalAux (h + 1) h ++ ']' :: X) =
      some (h, ']' :: X) := fun X => parse_u32_toDecimal h (']' :: X) hh rfl
  have e3 : ∀ X : List Char, parse_u32 (toDecimalAux (nf + 1) nf ++ ',' :: X) =
      some (nf, ',' :: X) := fun X => parse_u32_toDecimal nf (',' :: X) hnf rfl
  have e4 : ∀ X : List Char, parse_u32 (toDecimalAux (fr + 1) fr ++ '\x7d' :: X) =
      some (fr, '\x7d' :: X) := fun X => parse_u32_toDecimal fr ('\x7d' :: X) hfr rfl
  rw [format_metadata_json_eq]
  unfold parse_metadata_json
  simp [expect, Option.bind, parseStringBody_escape, e1, e2, e3, e4,
    escapeJson, toDecimal, data_mk]

/-- Witness for C7 at the spec's example record. -/
theorem c7_json_round_trip_witness :
    (Metadata.valid ⟨"/d/good.swf", (800, 600), 100, 30⟩) ∧
    parse_metadata_json (format_metadata ⟨"/d/good.swf", (800, 600), 100, 30⟩ "json") =
      some ⟨"/d/good.swf", (800, 600), 100, 30⟩ :=
  ⟨by decide, c7_json_round_trip _ (by decide)⟩
